import Mathlib

/-!
Shallow embedding of the TTB label-verifier backend (`backend/app.py`).

Strings are modelled as `List Char`.  Python's `str.lower` is modelled by
`Char.toLower` (ASCII case folding, which covers every character the
checks compare).  Python's `\s` / `str.strip()` whitespace class is
modelled by `pySpace` (the six ASCII whitespace characters).  Python
floats are modelled by `PyFloat`, exact scaled decimals `m * 10 ^ e`
read into `ℚ` by `PyFloat.toRat`; every numeric literal the verifier
compares is a short decimal, for which the ordering comparisons the code
performs (`abs diff ≤ 0.5`, `count ≥ n * 0.7`) agree with exact rational
arithmetic.
-/

/-- The ASCII whitespace characters recognised by Python's `\s`,
`str.strip()` and `str.split()`. -/
def pySpace (c : Char) : Bool :=
  c = ' ' || c = '\t' || c = '\n' || c = '\r' ||
    c = Char.ofNat 11 || c = Char.ofNat 12

/-- Python `str.lower()` (ASCII fold, as used on the label text). -/
def pyLower (l : List Char) : List Char :=
  l.map Char.toLower

/-- Python `str.strip()`: drop leading and trailing whitespace. -/
def pyStrip (l : List Char) : List Char :=
  ((l.dropWhile pySpace).reverse.dropWhile pySpace).reverse

/-- `re.sub(r'\s+', ' ', s)`: replace every maximal whitespace run by a
single ASCII space. -/
def collapseWs : List Char → List Char
  | [] => []
  | c :: rest =>
    if pySpace c then
      match rest with
      | [] => [' ']
      | d :: _ => if pySpace d then collapseWs rest else ' ' :: collapseWs rest
    else c :: collapseWs rest

/-- `normalize_text` from `app.py`: empty input maps to the empty string;
otherwise lowercase, strip, then collapse internal whitespace runs. -/
def normalize_text (text : List Char) : List Char :=
  if text = [] then [] else collapseWs (pyStrip (pyLower text))

/-- Python's substring test `a in b` on strings: contiguous-infix test. -/
def isSubOf (a b : List Char) : Bool :=
  decide (a <:+: b)

/-- Worker for `pySplit`: `acc` holds the reversed characters of the word
currently being read. -/
def pySplitGo (acc : List Char) : List Char → List (List Char)
  | [] => if acc.isEmpty then [] else [acc.reverse]
  | c :: rest =>
    if pySpace c then
      if acc.isEmpty then pySplitGo [] rest
      else acc.reverse :: pySplitGo [] rest
    else pySplitGo (c :: acc) rest

/-- Python `str.split()` with no argument: split on whitespace runs,
dropping empty pieces. -/
def pySplit (l : List Char) : List (List Char) :=
  pySplitGo [] l

/-- Match the number part `\d+\.?\d*` at the start of `l`; returns the
matched characters and the remainder.  The regex engine's backtracking
never produces a different result here: shrinking `\d+`/`\.?`/`\d*`
leaves a digit or a dot in front of the following `\s*`+literal part,
which can match neither, so maximal munch is exact. -/
def matchNumAt (l : List Char) : Option (List Char × List Char) :=
  let d1 := l.takeWhile Char.isDigit
  if d1.isEmpty then none
  else
    match l.dropWhile Char.isDigit with
    | '.' :: r => some (d1 ++ '.' :: r.takeWhile Char.isDigit, r.dropWhile Char.isDigit)
    | r1 => some (d1, r1)

/-- Match `(\d+\.?\d*)\s*%` at the start of `l`: the group, then the rest
after the `%`. -/
def matchPctAt (l : List Char) : Option (List Char × List Char) :=
  match matchNumAt l with
  | some (num, r) =>
    match r.dropWhile pySpace with
    | '%' :: rest => some (num, rest)
    | _ => none
  | none => none

/-- Non-overlapping left-to-right scan, as `re.findall` does: try the
matcher at every position, resuming after the end of each match.  Fuel
counts down once per step; `fuel = l.length` is enough because every
successful match consumes at least one character
(`scanGo_eq_of_le_fuel` below makes this exact). -/
def scanGo (m : List Char → Option (List Char × List Char)) :
    Nat → List Char → List (List Char)
  | _, [] => []
  | 0, _ :: _ => []
  | fuel + 1, c :: rest =>
    match m (c :: rest) with
    | some (a, after) => a :: scanGo m fuel after
    | none => scanGo m fuel rest

/-- `re.findall pattern l` for a single-result matcher `m`. -/
def scanMatches (m : List Char → Option (List Char × List Char))
    (l : List Char) : List (List Char) :=
  scanGo m l.length l

/-- A Python float value as an exact scaled decimal `m * 10 ^ e`.  Every
float the verifier manipulates comes from a short decimal literal, for
which the comparisons the code performs agree with exact arithmetic. -/
structure PyFloat where
  m : Int
  e : Int
  deriving DecidableEq, Repr

/-- The rational value of a `PyFloat`. -/
def PyFloat.toRat (a : PyFloat) : ℚ :=
  (a.m : ℚ) * 10 ^ a.e

/-- Comparison `a <= b` on scaled decimals (cross-multiplied to a common
power of ten, so it evaluates over `Int`). -/
def PyFloat.le (a b : PyFloat) : Bool :=
  let k := min a.e b.e
  a.m * 10 ^ (a.e - k).toNat ≤ b.m * 10 ^ (b.e - k).toNat

/-- Subtraction on scaled decimals. -/
def PyFloat.sub (a b : PyFloat) : PyFloat :=
  let k := min a.e b.e
  ⟨a.m * 10 ^ (a.e - k).toNat - b.m * 10 ^ (b.e - k).toNat, k⟩

/-- Absolute value on scaled decimals. -/
def PyFloat.abs (a : PyFloat) : PyFloat :=
  ⟨|a.m|, a.e⟩

/-- Multiplication on scaled decimals. -/
def PyFloat.mul (a b : PyFloat) : PyFloat :=
  ⟨a.m * b.m, a.e + b.e⟩

/-- Value of a digit string (used for `float()` on matched groups). -/
def digitsVal (l : List Char) : Nat :=
  l.foldl (fun a c => 10 * a + (c.toNat - 48)) 0

/-- Python `float()` on a matched group `\d+\.?\d*` (always succeeds, so
the `try` in `find_percentage` never fires): the digits joined, scaled
down by the number of fractional digits. -/
def parsePct (s : List Char) : PyFloat :=
  let ip := s.takeWhile Char.isDigit
  let fp :=
    match s.dropWhile Char.isDigit with
    | '.' :: r => r
    | _ => []
  ⟨(digitsVal (ip ++ fp) : Int), -(fp.length : Int)⟩

/-- `find_percentage` from `app.py`: all `<number>%` matches in the
lowercased text, parsed, keeping only values in `[0, 100]`. -/
def find_percentage (text : List Char) : List PyFloat :=
  ((scanMatches matchPctAt (pyLower text)).map parsePct).filter
    (fun v => PyFloat.le ⟨0, 0⟩ v && PyFloat.le v ⟨100, 0⟩)

/-- Match `(\d+\.?\d*)\s*(ml|mL)` at the start (text is already
lowercased, so only `ml` can occur); returns the formatted candidate
`f"{num} {unit}".strip()` and the rest. -/
def matchMlAt (l : List Char) : Option (List Char × List Char) :=
  match matchNumAt l with
  | some (num, r) =>
    match r.dropWhile pySpace with
    | 'm' :: 'l' :: rest => some (pyStrip (num ++ ' ' :: ['m', 'l']), rest)
    | _ => none
  | none => none

/-- Match `(\d+\.?\d*)\s*(fl\s*oz|oz)`: the alternation tries `fl\s*oz`
first, then `oz`, at the position right after the maximal `\s*`. -/
def matchFlozAt (l : List Char) : Option (List Char × List Char) :=
  match matchNumAt l with
  | some (num, r) =>
    match r.dropWhile pySpace with
    | 'f' :: 'l' :: r3 =>
      match r3.dropWhile pySpace with
      | 'o' :: 'z' :: rest =>
        some (pyStrip (num ++ ' ' :: 'f' :: 'l' :: (r3.takeWhile pySpace ++ ['o', 'z'])), rest)
      | _ => none
    | 'o' :: 'z' :: rest => some (pyStrip (num ++ ' ' :: ['o', 'z']), rest)
    | _ => none
  | none => none

/-- Match `(\d+\.?\d*)\s*(l|L)` (lowercased text: only `l`). -/
def matchLAt (l : List Char) : Option (List Char × List Char) :=
  match matchNumAt l with
  | some (num, r) =>
    match r.dropWhile pySpace with
    | 'l' :: rest => some (pyStrip (num ++ [' ', 'l']), rest)
    | _ => none
  | none => none

/-- `find_volume` from `app.py`: the three unit patterns are scanned over
the lowercased text in fixed order, concatenating their match lists. -/
def find_volume (text : List Char) : List (List Char) :=
  scanMatches matchMlAt (pyLower text) ++
    scanMatches matchFlozAt (pyLower text) ++
      scanMatches matchLAt (pyLower text)

/-- Strip factors of ten from the mantissa into the exponent while the
exponent is negative (enough fuel is passed by the caller). -/
def canonDec : Nat → Int → Int → Int × Int
  | 0, m, e => (m, e)
  | fuel + 1, m, e =>
    if m % 10 = 0 ∧ e < 0 then canonDec fuel (m / 10) (e + 1) else (m, e)

/-- Python `repr`/f-string formatting of a float that is a short decimal:
the minimal decimal digit string, always keeping one fractional digit
(`40.0`, `40.5`, `0.5`).  Values large enough for Python to switch to
scientific notation do not occur in the verifier's messages. -/
def PyFloat.pyRepr (a : PyFloat) : List Char :=
  let me := canonDec (-a.e).toNat a.m a.e
  let sign : List Char := if me.1 < 0 then ['-'] else []
  if 0 ≤ me.2 then
    sign ++ Nat.toDigits 10 (me.1.natAbs * 10 ^ me.2.toNat) ++ ['.', '0']
  else
    let k := (-me.2).toNat
    let ds := Nat.toDigits 10 me.1.natAbs
    let padded := List.replicate (k + 1 - ds.length) '0' ++ ds
    sign ++ padded.take (padded.length - k) ++ '.' :: padded.drop (padded.length - k)

/-- Python `float()` on an arbitrary string, as an exact decimal:
optional sign, then `digits [. digits]` or `. digits`, then an optional
exponent part; the whole string must be consumed.  (The special forms
`inf`/`nan` and PEP-515 underscores are not modelled; no claim depends
on them.) -/
def pyFloat? (s : List Char) : Option PyFloat :=
  let sgn : Int × List Char :=
    match s with
    | '+' :: r => (1, r)
    | '-' :: r => (-1, r)
    | r => (1, r)
  let ip := sgn.2.takeWhile Char.isDigit
  let s2 := sgn.2.dropWhile Char.isDigit
  let fps : List Char × List Char :=
    match s2 with
    | '.' :: r => (r.takeWhile Char.isDigit, r.dropWhile Char.isDigit)
    | r => ([], r)
  if ip.isEmpty && fps.1.isEmpty then none
  else
    let mant : Int := sgn.1 * (digitsVal (ip ++ fps.1) : Int)
    let e0 : Int := -(fps.1.length : Int)
    match fps.2 with
    | [] => some ⟨mant, e0⟩
    | c :: r =>
      if c = 'e' || c = 'E' then
        let esgn : Int × List Char :=
          match r with
          | '+' :: rr => (1, rr)
          | '-' :: rr => (-1, rr)
          | rr => (1, rr)
        let ed := esgn.2.takeWhile Char.isDigit
        let r2 := esgn.2.dropWhile Char.isDigit
        if ed.isEmpty || !r2.isEmpty then none
        else some ⟨mant, e0 + esgn.1 * (digitsVal ed : Int)⟩
      else none

/-- `check_match` from `app.py` (brand name and product class).  The 70%
token threshold `found >= len(form_words) * 0.7` is written with exact
scaled decimals (`0.7` as `⟨7, -1⟩`); for integer counts this agrees
with Python's float comparison. -/
def check_match (label_text form_value field_name : List Char) :
    Bool × List Char :=
  if form_value.isEmpty then
    (false, field_name ++ " not provided in form".toList)
  else
    let label_lower := normalize_text label_text
    let form_lower := normalize_text form_value
    if isSubOf form_lower label_lower then
      (true, field_name ++ " found on label".toList)
    else
      let form_words := pySplit form_lower
      if form_words.length > 1 &&
          PyFloat.le (PyFloat.mul ⟨(form_words.length : Int), 0⟩ ⟨7, -1⟩)
            ⟨((form_words.filter (fun w => isSubOf w label_lower)).length : Int), 0⟩ then
        (true, field_name ++ " partially matched".toList)
      else
        (false, field_name ++ " not found on label".toList)

/-- `re.sub(r'[%\s]', '', form_abv)`: drop every percent sign and
whitespace character. -/
def alcoholCleaned (form_abv : List Char) : List Char :=
  form_abv.filter (fun c => !(c = '%' || pySpace c))

/-- `check_alcohol` from `app.py`: parse the form value as a float, then
accept if any extracted label percentage is within `0.5` (`⟨5, -1⟩`). -/
def check_alcohol (label_text form_abv : List Char) : Bool × List Char :=
  if form_abv.isEmpty then
    (false, "Alcohol content not provided".toList)
  else
    match pyFloat? (alcoholCleaned form_abv) with
    | none => (false, "Invalid alcohol content: ".toList ++ form_abv)
    | some form_value =>
      match find_percentage label_text with
      | [] =>
        (false, "Alcohol content not found on label (expected ".toList ++
          form_value.pyRepr ++ "%)".toList)
      | p0 :: ps =>
        match (p0 :: ps).find?
            (fun label_val => ((label_val.sub form_value).abs).le ⟨5, -1⟩) with
        | some label_val =>
          (true, "Alcohol content matches: ".toList ++ label_val.pyRepr ++ "%".toList)
        | none =>
          (false, "Alcohol content mismatch: found ".toList ++ p0.pyRepr ++
            "%, expected ".toList ++ form_value.pyRepr ++ "%".toList)

/-- `check_volume` from `app.py`: the optional net-contents field. -/
def check_volume (label_text form_volume : List Char) : Bool × List Char :=
  if form_volume.isEmpty then
    (true, "Net contents not required".toList)
  else
    match find_volume label_text with
    | [] =>
      (false, "Net contents not found on label (expected ".toList ++
        form_volume ++ ")".toList)
    | v0 :: vs =>
      let form_lower := normalize_text form_volume
      match (v0 :: vs).find?
          (fun label_vol => isSubOf form_lower (normalize_text label_vol) ||
            isSubOf (normalize_text label_vol) form_lower) with
      | some label_vol => (true, "Net contents matches: ".toList ++ label_vol)
      | none =>
        (false, "Net contents mismatch: found ".toList ++ v0 ++
          ", expected ".toList ++ form_volume)

/-- The four key phrases scanned by `check_warning`. -/
def warningPhrases : List (List Char) :=
  ["pregnant".toList, "driving".toList,
    "operating machinery".toList, "health problems".toList]

/-- `check_warning` from `app.py`. -/
def check_warning (label_text : List Char) : Bool × List Char :=
  let text_lower := normalize_text label_text
  if isSubOf ("government warning".toList) text_lower then
    (true, "Government warning found on label".toList)
  else if 2 ≤ (warningPhrases.filter (fun p => isSubOf p text_lower)).length then
    (true, "Government warning partially found".toList)
  else
    (false, "Government warning not found on label".toList)

/-- One per-field verdict, as serialized into `checks[]`. -/
structure FieldCheckResult where
  field : List Char
  matched : Bool
  message : List Char
  deriving DecidableEq, Repr

/-- The success payload of `/api/verify`. -/
structure VerificationResult where
  overall_match : Bool
  extracted_text_preview : List Char
  checks : List FieldCheckResult
  deriving DecidableEq, Repr

/-- The form fields of the request.  `form_data.get(key, '')` returns
`''` for an absent key and `form_data.get(key)` is falsy exactly when
the value is absent or empty, so an absent field and an empty field are
indistinguishable to the checks; both are the empty string here. -/
structure FormData where
  brandName : List Char
  productClass : List Char
  alcoholContent : List Char
  netContents : List Char
  deriving DecidableEq, Repr

instance {ε α : Type} [DecidableEq ε] [DecidableEq α] : DecidableEq (Except ε α)
  | Except.ok a, Except.ok b =>
    if h : a = b then isTrue (by rw [h])
    else isFalse (by simp [h])
  | Except.ok _, Except.error _ => isFalse (by simp)
  | Except.error _, Except.ok _ => isFalse (by simp)
  | Except.error a, Except.error b =>
    if h : a = b then isTrue (by rw [h])
    else isFalse (by simp [h])

/-- The core of `verify_label` from `app.py`, from the point where the
OCR text is available: the OCR-quality gate, then the fixed check
sequence with its running `overall_match` flag.  The earlier image
checks and the OCR call itself are the transport collaborator and stay
outside the model; a 400 response is `Except.error`. -/
def verify_label (extracted_text : List Char) (form : FormData) :
    Except (List Char) VerificationResult :=
  if extracted_text.isEmpty || (pyStrip extracted_text).length < 10 then
    Except.error ("Could not read text from image. Please try a clearer image.".toList)
  else
    let preview :=
      if extracted_text.length > 200 then extracted_text.take 200 ++ "...".toList
      else extracted_text
    let brand := check_match extracted_text form.brandName ("Brand Name".toList)
    let om1 := if !brand.1 then false else true
    let cls := check_match extracted_text form.productClass ("Product Class/Type".toList)
    let om2 := if !cls.1 then false else om1
    let abv := check_alcohol extracted_text form.alcoholContent
    let om3 := if !abv.1 then false else om2
    let runNet := !form.netContents.isEmpty
    let vol := check_volume extracted_text form.netContents
    let om4 := if runNet && !vol.1 then false else om3
    let warn := check_warning extracted_text
    let om5 := if !warn.1 then false else om4
    Except.ok
      { overall_match := om5
        extracted_text_preview := preview
        checks :=
          [⟨"Brand Name".toList, brand.1, brand.2⟩,
            ⟨"Product Class/Type".toList, cls.1, cls.2⟩,
            ⟨"Alcohol Content".toList, abv.1, abv.2⟩] ++
          (if runNet then [⟨"Net Contents".toList, vol.1, vol.2⟩] else []) ++
          [⟨"Government Warning".toList, warn.1, warn.2⟩] }

/-! ### Bridge lemmas: scaled-decimal operations compute rational facts -/

/-- A nonnegative `Int` exponent can be read as a `Nat` power. -/
theorem qpow_toNat (x : Int) (hx : 0 ≤ x) :
    ((10 : ℚ)) ^ x.toNat = (10 : ℚ) ^ x := by
  rw [← zpow_natCast]
  congr 1
  omega

/-- Casting a cross-multiplied mantissa to `ℚ` rescales the value. -/
theorem scaled_cast (mm : Int) (ee k : Int) (hk : k ≤ ee) :
    ((mm * 10 ^ (ee - k).toNat : ℤ) : ℚ) = ((mm : ℚ) * 10 ^ ee) * 10 ^ (-k) := by
  push_cast
  rw [qpow_toNat _ (by omega),
    show ee - k = ee + (-k) by ring,
    zpow_add₀ (by norm_num : (10 : ℚ) ≠ 0)]
  ring

/-- `PyFloat.le` decides `≤` on the rational values. -/
theorem PyFloat.le_iff (a b : PyFloat) : PyFloat.le a b = true ↔ a.toRat ≤ b.toRat := by
  have h10 : (0 : ℚ) < (10 : ℚ) ^ (-(min a.e b.e)) := by positivity
  calc PyFloat.le a b = true
      ↔ a.m * 10 ^ (a.e - min a.e b.e).toNat ≤ b.m * 10 ^ (b.e - min a.e b.e).toNat := by
        simp [PyFloat.le]
    _ ↔ ((a.m * 10 ^ (a.e - min a.e b.e).toNat : ℤ) : ℚ) ≤
          ((b.m * 10 ^ (b.e - min a.e b.e).toNat : ℤ) : ℚ) := Int.cast_le.symm
    _ ↔ a.toRat * 10 ^ (-(min a.e b.e)) ≤ b.toRat * 10 ^ (-(min a.e b.e)) := by
        rw [scaled_cast _ _ _ (min_le_left a.e b.e), scaled_cast _ _ _ (min_le_right a.e b.e)]
        exact Iff.rfl
    _ ↔ a.toRat ≤ b.toRat := mul_le_mul_right h10

/-- `PyFloat.sub` computes subtraction of the rational values. -/
theorem PyFloat.toRat_sub (a b : PyFloat) : (a.sub b).toRat = a.toRat - b.toRat := by
  show ((a.m * 10 ^ (a.e - min a.e b.e).toNat - b.m * 10 ^ (b.e - min a.e b.e).toNat : ℤ) : ℚ) *
      10 ^ (min a.e b.e) = a.toRat - b.toRat
  rw [Int.cast_sub, scaled_cast _ _ _ (min_le_left a.e b.e),
    scaled_cast _ _ _ (min_le_right a.e b.e)]
  have h : (10 : ℚ) ^ (-(min a.e b.e)) * 10 ^ (min a.e b.e) = 1 := by
    rw [← zpow_add₀ (by norm_num : (10 : ℚ) ≠ 0)]
    simp
  calc (a.toRat * 10 ^ (-(min a.e b.e)) - b.toRat * 10 ^ (-(min a.e b.e))) * 10 ^ (min a.e b.e)
      = a.toRat * (10 ^ (-(min a.e b.e)) * 10 ^ (min a.e b.e)) -
        b.toRat * (10 ^ (-(min a.e b.e)) * 10 ^ (min a.e b.e)) := by ring
    _ = a.toRat - b.toRat := by
        rw [h, mul_one, mul_one]

/-- `PyFloat.abs` computes the absolute value of the rational value. -/
theorem PyFloat.toRat_abs (a : PyFloat) : (PyFloat.abs a).toRat = |a.toRat| := by
  show ((|a.m| : ℤ) : ℚ) * 10 ^ a.e = |(a.m : ℚ) * 10 ^ a.e|
  rw [abs_mul, abs_of_pos (a := (10 : ℚ) ^ a.e) (by positivity)]
  push_cast
  rfl

/-- `PyFloat.mul` computes multiplication of the rational values. -/
theorem PyFloat.toRat_mul (a b : PyFloat) : (a.mul b).toRat = a.toRat * b.toRat := by
  show ((a.m * b.m : ℤ) : ℚ) * 10 ^ (a.e + b.e) = _
  rw [zpow_add₀ (by norm_num : (10 : ℚ) ≠ 0)]
  push_cast
  unfold PyFloat.toRat
  ring

/-! ### Helper lemmas about whitespace and normalization -/

/-- Lowercasing fixes every character that is already not an upper-case
ASCII letter; in particular all whitespace characters. -/
theorem toLower_of_pySpace {c : Char} (h : pySpace c = true) : c.toLower = c := by
  simp only [pySpace, Bool.or_eq_true, decide_eq_true_eq] at h
  rcases h with ((((h | h) | h) | h) | h) | h <;> subst h <;> decide

/-- `dropWhile` empties a list all of whose elements satisfy `p`. -/
theorem dropWhile_eq_nil_of_all {p : Char → Bool} {l : List Char}
    (h : ∀ c ∈ l, p c = true) : l.dropWhile p = [] := by
  induction l with
  | nil => rfl
  | cons c rest ih =>
    rw [List.dropWhile_cons_of_pos (h c (by simp))]
    exact ih (fun d hd => h d (by simp [hd]))

/-- A whitespace-only string normalizes to the empty string. -/
theorem normalize_text_of_all_space {l : List Char}
    (h : ∀ c ∈ l, pySpace c = true) : normalize_text l = [] := by
  have hdrop : (pyLower l).dropWhile pySpace = [] := by
    apply dropWhile_eq_nil_of_all
    intro c hc
    rcases List.mem_map.mp hc with ⟨d, hd, rfl⟩
    rw [toLower_of_pySpace (h d hd)]
    exact h d hd
  by_cases hl : l = []
  · subst hl
    rfl
  · unfold normalize_text pyStrip
    rw [if_neg hl, hdrop]
    rfl

/-- The empty string is a substring of every string. -/
theorem isSubOf_nil (l : List Char) : isSubOf [] l = true := by
  simp [isSubOf]

/-- The sequential `overall_match` updates of `verify_label` compute the
conjunction of the individual verdicts (the optional net-contents check
counting only when it runs). -/
theorem om_chain : ∀ (b c a rn v w : Bool),
    (if !w then false
     else if rn && !v then false
     else if !a then false
     else if !c then false
     else if !b then false
     else true) = (b && c && a && (!rn || v) && w) := by
  decide

/-- Unfolding `verify_label` past the gate: the explicit result record. -/
theorem verify_label_ok (extracted : List Char) (form : FormData)
    (h : 10 ≤ (pyStrip extracted).length) :
    verify_label extracted form = Except.ok
      { overall_match :=
          (check_match extracted form.brandName ("Brand Name".toList)).1 &&
            (check_match extracted form.productClass ("Product Class/Type".toList)).1 &&
            (check_alcohol extracted form.alcoholContent).1 &&
            (!(!form.netContents.isEmpty) || (check_volume extracted form.netContents).1) &&
            (check_warning extracted).1
        extracted_text_preview :=
          if extracted.length > 200 then extracted.take 200 ++ "...".toList else extracted
        checks :=
          [⟨"Brand Name".toList, (check_match extracted form.brandName ("Brand Name".toList)).1,
              (check_match extracted form.brandName ("Brand Name".toList)).2⟩,
            ⟨"Product Class/Type".toList,
              (check_match extracted form.productClass ("Product Class/Type".toList)).1,
              (check_match extracted form.productClass ("Product Class/Type".toList)).2⟩,
            ⟨"Alcohol Content".toList, (check_alcohol extracted form.alcoholContent).1,
              (check_alcohol extracted form.alcoholContent).2⟩] ++
          (if !form.netContents.isEmpty then
            [⟨"Net Contents".toList, (check_volume extracted form.netContents).1,
                (check_volume extracted form.netContents).2⟩]
          else []) ++
          [⟨"Government Warning".toList, (check_warning extracted).1,
              (check_warning extracted).2⟩] }
    := by
  have hne : extracted.isEmpty = false := by
    rcases extracted with _ | ⟨c, rest⟩
    · simp [pyStrip] at h
    · rfl
  have hgate : (extracted.isEmpty || decide ((pyStrip extracted).length < 10)) = false := by
    rw [hne]
    simp
    omega
  unfold verify_label
  rw [hgate]
  simp only [Bool.false_eq_true, if_false]
  rw [← om_chain (check_match extracted form.brandName ("Brand Name".toList)).1
    (check_match extracted form.productClass ("Product Class/Type".toList)).1
    (check_alcohol extracted form.alcoholContent).1
    (!form.netContents.isEmpty)
    (check_volume extracted form.netContents).1
    (check_warning extracted).1]

/-- The 70% token threshold computed by `check_match`, read over `ℚ`. -/
theorem threshold_bridge (len found : Nat) :
    PyFloat.le (PyFloat.mul ⟨(len : Int), 0⟩ ⟨7, -1⟩) ⟨(found : Int), 0⟩ = true ↔
      (7 : ℚ) / 10 * len ≤ found := by
  rw [PyFloat.le_iff, PyFloat.toRat_mul]
  unfold PyFloat.toRat
  norm_num [zpow_neg]
  rw [mul_comm]

/-- The `±0.5` alcohol tolerance computed by `check_alcohol`, read over
`ℚ`. -/
theorem tolerance_bridge (p v : PyFloat) :
    ((p.sub v).abs).le ⟨5, -1⟩ = true ↔ |p.toRat - v.toRat| ≤ 1 / 2 := by
  rw [PyFloat.le_iff, PyFloat.toRat_abs, PyFloat.toRat_sub]
  have : PyFloat.toRat ⟨5, -1⟩ = 1 / 2 := by
    unfold PyFloat.toRat
    norm_num [zpow_neg]
  rw [this]

/-! ### Normalization: structural lemmas for idempotence (C8) -/

theorem collapseWs_cons_nonspace {a : Char} (ha : pySpace a = false) (X : List Char) :
    collapseWs (a :: X) = a :: collapseWs X := by
  cases X <;> simp [collapseWs, ha]

theorem collapseWs_singleton_space {a : Char} (ha : pySpace a = true) :
    collapseWs [a] = [' '] := by
  simp [collapseWs, ha]

theorem collapseWs_cons_space_space {a d : Char} (ha : pySpace a = true)
    (hd : pySpace d = true) (t : List Char) :
    collapseWs (a :: d :: t) = collapseWs (d :: t) := by
  simp [collapseWs, ha, hd]

theorem collapseWs_cons_space_nonspace {a d : Char} (ha : pySpace a = true)
    (hd : pySpace d = false) (t : List Char) :
    collapseWs (a :: d :: t) = ' ' :: collapseWs (d :: t) := by
  simp [collapseWs, ha, hd]

theorem collapseWs_ne_nil {l : List Char} (h : l ≠ []) : collapseWs l ≠ [] := by
  induction l with
  | nil => exact absurd rfl h
  | cons a rest ih =>
    by_cases ha : pySpace a
    · cases rest with
      | nil => rw [collapseWs_singleton_space ha]; simp
      | cons d t =>
        by_cases hd : pySpace d
        · rw [collapseWs_cons_space_space ha hd]; exact ih (by simp)
        · rw [collapseWs_cons_space_nonspace ha (by simpa using hd)]; simp
    · rw [collapseWs_cons_nonspace (by simpa using ha)]; simp

theorem mem_collapseWs {c : Char} {l : List Char} (h : c ∈ collapseWs l) :
    c = ' ' ∨ c ∈ l := by
  induction l with
  | nil => simp [collapseWs] at h
  | cons a rest ih =>
    by_cases ha : pySpace a
    · cases rest with
      | nil =>
        rw [collapseWs_singleton_space ha] at h
        simp at h
        exact Or.inl h
      | cons d t =>
        by_cases hd : pySpace d
        · rw [collapseWs_cons_space_space ha hd] at h
          rcases ih h with h1 | h1
          · exact Or.inl h1
          · exact Or.inr (by simp [h1])
        · rw [collapseWs_cons_space_nonspace ha (by simpa using hd)] at h
          rcases List.mem_cons.mp h with h1 | h1
          · exact Or.inl h1
          · rcases ih h1 with h2 | h2
            · exact Or.inl h2
            · exact Or.inr (by simp [h2])
    · rw [collapseWs_cons_nonspace (by simpa using ha)] at h
      rcases List.mem_cons.mp h with h1 | h1
      · exact Or.inr (by simp [h1])
      · rcases ih h1 with h2 | h2
        · exact Or.inl h2
        · exact Or.inr (by simp [h2])

theorem collapseWs_idem (l : List Char) : collapseWs (collapseWs l) = collapseWs l := by
  induction l with
  | nil => rfl
  | cons a rest ih =>
    by_cases ha : pySpace a
    · cases rest with
      | nil =>
        rw [collapseWs_singleton_space ha]
        decide
      | cons d t =>
        by_cases hd : pySpace d
        · rw [collapseWs_cons_space_space ha hd]
          exact ih
        · have hd' : pySpace d = false := by simpa using hd
          rw [collapseWs_cons_space_nonspace ha hd']
          rw [collapseWs_cons_nonspace hd']
          rw [collapseWs_cons_space_nonspace (by decide) hd']
          rw [collapseWs_cons_nonspace hd']
          rw [collapseWs_cons_nonspace hd'] at ih
          rw [collapseWs_cons_nonspace hd'] at ih
          rw [ih]
    · have ha' : pySpace a = false := by simpa using ha
      cases rest with
      | nil =>
        rw [collapseWs_cons_nonspace ha']
        rw [show collapseWs ([] : List Char) = [] from rfl]
        rw [collapseWs_cons_nonspace ha']
        rfl
      | cons d t =>
        rw [collapseWs_cons_nonspace ha']
        rw [collapseWs_cons_nonspace ha']
        rw [ih]

theorem head_not_space_collapseWs {l : List Char}
    (h : ∀ c, l.head? = some c → pySpace c = false) :
    ∀ c, (collapseWs l).head? = some c → pySpace c = false := by
  cases l with
  | nil => intro c hc; simp [collapseWs] at hc
  | cons a rest =>
    have ha : pySpace a = false := h a rfl
    rw [collapseWs_cons_nonspace ha]
    intro c hc
    rw [List.head?_cons, Option.some.injEq] at hc
    rw [← hc]
    exact ha

theorem getLast_cons_ne_nil {a : Char} {X : List Char} (h : X ≠ []) :
    (a :: X).getLast? = X.getLast? := by
  cases X with
  | nil => exact absurd rfl h
  | cons y ys => exact List.getLast?_cons_cons

theorem getLast_not_space_collapseWs {l : List Char}
    (h : ∀ c, l.getLast? = some c → pySpace c = false) :
    ∀ c, (collapseWs l).getLast? = some c → pySpace c = false := by
  induction l with
  | nil => intro c hc; simp [collapseWs] at hc
  | cons a rest ih =>
    by_cases ha : pySpace a
    · cases rest with
      | nil =>
        have := h a (by simp)
        rw [this] at ha
        cases ha
      | cons d t =>
        have h' : ∀ c, (d :: t).getLast? = some c → pySpace c = false := by
          intro c hc
          exact h c (by rw [List.getLast?_cons_cons]; exact hc)
        by_cases hd : pySpace d
        · rw [collapseWs_cons_space_space ha hd]
          exact ih h'
        · have hd' : pySpace d = false := by simpa using hd
          rw [collapseWs_cons_space_nonspace ha hd']
          intro c hc
          rw [getLast_cons_ne_nil (collapseWs_ne_nil (by simp))] at hc
          exact ih h' c hc
    · have ha' : pySpace a = false := by simpa using ha
      cases rest with
      | nil =>
        rw [collapseWs_cons_nonspace ha']
        intro c hc
        simp only [collapseWs] at hc
        simp at hc
        rw [← hc]
        exact ha'
      | cons d t =>
        have h' : ∀ c, (d :: t).getLast? = some c → pySpace c = false := by
          intro c hc
          exact h c (by rw [List.getLast?_cons_cons]; exact hc)
        rw [collapseWs_cons_nonspace ha']
        intro c hc
        rw [getLast_cons_ne_nil (collapseWs_ne_nil (by simp))] at hc
        exact ih h' c hc

theorem head_not_space_of_dropWhile {p : Char → Bool} {l : List Char} :
    ∀ c, (l.dropWhile p).head? = some c → p c = false := by
  intro c hc
  have := List.head?_dropWhile_not p l
  rw [hc] at this
  exact this

theorem suffix_getLast {l₁ l₂ : List Char} (h : l₁ <:+ l₂) (hne : l₁ ≠ []) :
    l₁.getLast? = l₂.getLast? := by
  obtain ⟨pre, rfl⟩ := h
  rw [List.getLast?_append]
  cases hx : l₁.getLast? with
  | none => exact absurd (List.getLast?_eq_none_iff.mp hx) hne
  | some y => rfl

theorem getLast_not_space_pyStrip {l : List Char} :
    ∀ c, (pyStrip l).getLast? = some c → pySpace c = false := by
  intro c hc
  unfold pyStrip at hc
  rw [List.getLast?_reverse] at hc
  exact head_not_space_of_dropWhile c hc

theorem head_not_space_pyStrip {l : List Char} :
    ∀ c, (pyStrip l).head? = some c → pySpace c = false := by
  intro c hc
  unfold pyStrip at hc
  rw [List.head?_reverse] at hc
  by_cases hne : (l.dropWhile pySpace).reverse.dropWhile pySpace = []
  · rw [hne] at hc
    simp at hc
  · rw [suffix_getLast (List.dropWhile_suffix pySpace) hne] at hc
    rw [List.getLast?_reverse] at hc
    exact head_not_space_of_dropWhile c hc

theorem dropWhile_eq_self_of_head {p : Char → Bool} {l : List Char}
    (h : ∀ c, l.head? = some c → p c = false) : l.dropWhile p = l := by
  cases l with
  | nil => rfl
  | cons a rest => exact List.dropWhile_cons_of_neg (by simp [h a rfl])

theorem pyStrip_eq_self {l : List Char}
    (hh : ∀ c, l.head? = some c → pySpace c = false)
    (hl : ∀ c, l.getLast? = some c → pySpace c = false) :
    pyStrip l = l := by
  unfold pyStrip
  rw [dropWhile_eq_self_of_head hh]
  rw [dropWhile_eq_self_of_head (by
    intro c hc
    rw [List.head?_reverse] at hc
    exact hl c hc)]
  exact List.reverse_reverse l

theorem pyLower_eq_self {l : List Char} (h : ∀ c ∈ l, c.toLower = c) :
    pyLower l = l := by
  induction l with
  | nil => rfl
  | cons a rest ih =>
    unfold pyLower
    rw [List.map_cons]
    rw [h a (by simp)]
    have := ih (fun c hc => h c (by simp [hc]))
    unfold pyLower at this
    rw [this]

theorem ofNat_toNat_valid (n : Nat) (h : 97 ≤ n ∧ n ≤ 122) : (Char.ofNat n).toNat = n := by
  have hv : n.isValidChar := by
    left
    omega
  simp [Char.ofNat, hv, Char.ofNatAux, Char.toNat, UInt32.toNat, BitVec.toNat_ofNatLt]

theorem toLower_toLower (c : Char) : c.toLower.toLower = c.toLower := by
  by_cases h : c.toNat ≥ 65 ∧ c.toNat ≤ 90
  · have h1 : c.toLower = Char.ofNat (c.toNat + 32) := by
      simp [Char.toLower, h]
    have h2 : (Char.ofNat (c.toNat + 32)).toNat = c.toNat + 32 := by
      apply ofNat_toNat_valid
      omega
    rw [h1]
    simp [Char.toLower, h2]
    omega
  · have h1 : c.toLower = c := by
      simp [Char.toLower]
      omega
    rw [h1, h1]

theorem normalize_text_of_ne_nil {l : List Char} (h : l ≠ []) :
    normalize_text l = collapseWs (pyStrip (pyLower l)) := by
  unfold normalize_text
  rw [if_neg h]

theorem normalize_text_idem (x : List Char) :
    normalize_text (normalize_text x) = normalize_text x := by
  by_cases hx : x = []
  · subst hx
    rfl
  · have hnx : normalize_text x = collapseWs (pyStrip (pyLower x)) :=
      normalize_text_of_ne_nil hx
    by_cases hu : normalize_text x = []
    · rw [hu]
      rfl
    · have hn2 : normalize_text (normalize_text x) =
          collapseWs (pyStrip (pyLower (normalize_text x))) :=
        normalize_text_of_ne_nil hu
      have hlow : pyLower (normalize_text x) = normalize_text x := by
        apply pyLower_eq_self
        intro c hc
        rw [hnx] at hc
        rcases mem_collapseWs hc with h1 | h1
        · rw [h1]
          decide
        · have h2 : c ∈ pyLower x := by
            unfold pyStrip at h1
            have h3 := List.mem_reverse.mp h1
            have h4 := List.dropWhile_subset pySpace h3
            have h5 := List.mem_reverse.mp h4
            exact List.dropWhile_subset pySpace h5
          rcases List.mem_map.mp h2 with ⟨d, _, rfl⟩
          exact toLower_toLower d
      have hhead : ∀ c, (normalize_text x).head? = some c → pySpace c = false := by
        rw [hnx]
        exact head_not_space_collapseWs (fun c hc => head_not_space_pyStrip c hc)
      have hlast : ∀ c, (normalize_text x).getLast? = some c → pySpace c = false := by
        rw [hnx]
        exact getLast_not_space_collapseWs (fun c hc => getLast_not_space_pyStrip c hc)
      have hstrip : pyStrip (normalize_text x) = normalize_text x :=
        pyStrip_eq_self hhead hlast
      rw [hn2, hlow, hstrip, hnx]
      exact collapseWs_idem _

theorem collapseWs_eq_self {l : List Char}
    (hsp : ∀ c ∈ l, pySpace c = true → c = ' ')
    (hno : ¬ ([' ', ' '] <:+: l)) : collapseWs l = l := by
  induction l with
  | nil => rfl
  | cons a rest ih =>
    have hsp' : ∀ c ∈ rest, pySpace c = true → c = ' ' :=
      fun c hc => hsp c (by simp [hc])
    have hno' : ¬ ([' ', ' '] <:+: rest) := fun h => hno (List.infix_cons h)
    by_cases ha : pySpace a
    · have ha2 : a = ' ' := hsp a (by simp) (by simpa using ha)
      cases rest with
      | nil =>
        rw [collapseWs_singleton_space (by simpa using ha), ha2]
      | cons d t =>
        have hd : pySpace d = false := by
          by_contra hdd
          have hd2 : d = ' ' := hsp d (by simp) (by simpa using hdd)
          apply hno
          subst ha2
          subst hd2
          exact List.IsPrefix.isInfix ⟨t, rfl⟩
        rw [collapseWs_cons_space_nonspace (by simpa using ha) hd]
        rw [ih hsp' hno', ha2]
    · rw [collapseWs_cons_nonspace (by simpa using ha)]
      rw [ih hsp' hno']

theorem normalize_of_normalized {x : List Char}
    (hlow : ∀ c ∈ x, c.toLower = c)
    (hsp : ∀ c ∈ x, pySpace c = true → c = ' ')
    (hno : ¬ ([' ', ' '] <:+: x))
    (hh : x.head? ≠ some ' ')
    (hl : x.getLast? ≠ some ' ') :
    normalize_text x = x := by
  by_cases hx : x = []
  · subst hx
    rfl
  · rw [normalize_text_of_ne_nil hx, pyLower_eq_self hlow]
    rw [pyStrip_eq_self ?_ ?_]
    · exact collapseWs_eq_self hsp hno
    · intro c hc
      by_contra hcc
      have h1 : c = ' ' :=
        hsp c (List.mem_of_mem_head? (by rw [hc]; rfl)) (by simpa using hcc)
      rw [h1] at hc
      exact hh hc
    · intro c hc
      by_contra hcc
      have h1 : c = ' ' :=
        hsp c (List.mem_of_mem_getLast? (by rw [hc]; rfl)) (by simpa using hcc)
      rw [h1] at hc
      exact hl hc

/-! ### Scan faithfulness: the fuel passed by `scanMatches` suffices -/

theorem dropWhile_lt_of_head_digit {l : List Char}
    (hd : ¬(l.takeWhile Char.isDigit).isEmpty = true) :
    (l.dropWhile Char.isDigit).length < l.length := by
  cases l with
  | nil => simp at hd
  | cons a t =>
    have ha : Char.isDigit a = true := by
      by_contra hna
      rw [List.takeWhile_cons_of_neg (by simpa using hna)] at hd
      simp at hd
    rw [List.dropWhile_cons_of_pos ha]
    have := (List.dropWhile_sublist (l := t) Char.isDigit).length_le
    simpa using Nat.lt_succ_of_le this

theorem matchNumAt_shrink {l num r : List Char} (h : matchNumAt l = some (num, r)) :
    r.length < l.length := by
  unfold matchNumAt at h
  by_cases hd : (List.takeWhile Char.isDigit l).isEmpty = true
  · simp only [if_pos hd] at h
    cases h
  · simp only [if_neg hd] at h
    split at h
    · next r' heq =>
      rw [Option.some.injEq, Prod.mk.injEq] at h
      obtain ⟨h1, h2⟩ := h
      subst h2
      have e1 : (r'.dropWhile Char.isDigit).length ≤ r'.length :=
        (List.dropWhile_sublist Char.isDigit).length_le
      have e2 : ('.' :: r').length ≤ l.length := by
        rw [← heq]
        exact (List.dropWhile_sublist Char.isDigit).length_le
      simp at e2
      omega
    · next hne =>
      rw [Option.some.injEq, Prod.mk.injEq] at h
      obtain ⟨h1, h2⟩ := h
      subst h2
      exact dropWhile_lt_of_head_digit hd

theorem drop_two_le {r rest : List Char} {a b : Char}
    (heq : r.dropWhile pySpace = a :: b :: rest) : rest.length + 2 ≤ r.length := by
  have := (List.dropWhile_sublist (l := r) pySpace).length_le
  rw [heq] at this
  simpa using this

theorem drop_one_le {r rest : List Char} {a : Char}
    (heq : r.dropWhile pySpace = a :: rest) : rest.length + 1 ≤ r.length := by
  have := (List.dropWhile_sublist (l := r) pySpace).length_le
  rw [heq] at this
  simpa using this

theorem matchPctAt_shrink {l a rest : List Char} (h : matchPctAt l = some (a, rest)) :
    rest.length < l.length := by
  unfold matchPctAt at h
  split at h
  · next num r heq1 =>
    split at h
    · next rest' heq2 =>
      rw [Option.some.injEq, Prod.mk.injEq] at h
      obtain ⟨h1, h2⟩ := h
      subst h2
      have e1 := drop_one_le heq2
      have e2 := matchNumAt_shrink heq1
      omega
    · cases h
  · cases h

theorem matchMlAt_shrink {l a rest : List Char} (h : matchMlAt l = some (a, rest)) :
    rest.length < l.length := by
  unfold matchMlAt at h
  split at h
  · next num r heq1 =>
    split at h
    · next rest' heq2 =>
      rw [Option.some.injEq, Prod.mk.injEq] at h
      obtain ⟨h1, h2⟩ := h
      subst h2
      have e1 := drop_two_le heq2
      have e2 := matchNumAt_shrink heq1
      omega
    · cases h
  · cases h

theorem matchFlozAt_shrink {l a rest : List Char} (h : matchFlozAt l = some (a, rest)) :
    rest.length < l.length := by
  unfold matchFlozAt at h
  split at h
  · next num r heq1 =>
    have e2 := matchNumAt_shrink heq1
    split at h
    · next r3 heq2 =>
      split at h
      · next rest' heq3 =>
        rw [Option.some.injEq, Prod.mk.injEq] at h
        obtain ⟨h1, h2⟩ := h
        subst h2
        have e1 := drop_two_le heq2
        have e3 := drop_two_le heq3
        omega
      · cases h
    · next rest' heq2 =>
      rw [Option.some.injEq, Prod.mk.injEq] at h
      obtain ⟨h1, h2⟩ := h
      subst h2
      have e1 := drop_two_le heq2
      omega
    · cases h
  · cases h

theorem matchLAt_shrink {l a rest : List Char} (h : matchLAt l = some (a, rest)) :
    rest.length < l.length := by
  unfold matchLAt at h
  split at h
  · next num r heq1 =>
    have e2 := matchNumAt_shrink heq1
    split at h
    · next rest' heq2 =>
      rw [Option.some.injEq, Prod.mk.injEq] at h
      obtain ⟨h1, h2⟩ := h
      subst h2
      have e1 := drop_one_le heq2
      omega
    · cases h
  · cases h

theorem scanGo_eq_of_le_fuel (m : List Char → Option (List Char × List Char))
    (hm : ∀ l a r, m l = some (a, r) → r.length < l.length) :
    ∀ fuel fuel' l, l.length ≤ fuel → l.length ≤ fuel' →
      scanGo m fuel l = scanGo m fuel' l := by
  intro fuel
  induction fuel with
  | zero =>
    intro fuel' l hf hf'
    have : l = [] := by
      cases l with
      | nil => rfl
      | cons a t => simp at hf
    subst this
    cases fuel' <;> rfl
  | succ f ih =>
    intro fuel' l hf hf'
    cases l with
    | nil => cases fuel' <;> rfl
    | cons c rest =>
      cases fuel' with
      | zero => simp at hf'
      | succ f' =>
        show (match m (c :: rest) with
            | some (a, after) => a :: scanGo m f after
            | none => scanGo m f rest) =
          (match m (c :: rest) with
            | some (a, after) => a :: scanGo m f' after
            | none => scanGo m f' rest)
        cases hm2 : m (c :: rest) with
        | some p =>
          obtain ⟨a, after⟩ := p
          have hlt := hm _ _ _ hm2
          simp only []
          rw [ih f' after (by simp at hf hlt ⊢; omega) (by simp at hf' hlt ⊢; omega)]
        | none =>
          simp only []
          exact ih f' rest (by simpa using hf) (by simpa using hf')

/-- Any fuel of at least the text length gives the same scan as
`scanMatches`, for any matcher that consumes at least one character. -/
theorem scanMatches_fuel_free (m : List Char → Option (List Char × List Char))
    (hm : ∀ l a r, m l = some (a, r) → r.length < l.length)
    (fuel : Nat) (l : List Char) (h : l.length ≤ fuel) :
    scanGo m fuel l = scanMatches m l :=
  scanGo_eq_of_le_fuel m hm fuel l.length l h le_rfl


/-! ### Sanity examples evaluating the embedding on concrete inputs -/

example : normalize_text ("  HeLLo   World \n".toList) = "hello world".toList := by decide

example : pySplit ("a bc  d".toList) = ["a".toList, "bc".toList, "d".toList] := by decide

example : isSubOf ("ell".toList) ("hello".toList) = true := by decide

example : find_percentage (" 45%".toList) = [⟨45, 0⟩] := by decide

example : find_percentage ("145%".toList) = [] := by decide

example : find_percentage ("alc 40.5 % vol 30%".toList) = [⟨405, -1⟩, ⟨30, 0⟩] := by decide

example : find_volume ("750 mL".toList) = ["750 ml".toList] := by decide

example : find_volume ("12 fl  oz and 1.5l".toList) =
    ["12 fl  oz".toList, "1.5 l".toList] := by decide

example : PyFloat.pyRepr ⟨40, 0⟩ = "40.0".toList := by decide

example : PyFloat.pyRepr ⟨405, -1⟩ = "40.5".toList := by decide

example : PyFloat.pyRepr ⟨450, -2⟩ = "4.5".toList := by decide

example : PyFloat.pyRepr ⟨5, -1⟩ = "0.5".toList := by decide

example : PyFloat.pyRepr ⟨0, -2⟩ = "0.0".toList := by decide

example : pyFloat? ("40".toList) = some ⟨40, 0⟩ := by decide

example : pyFloat? ("40.5".toList) = some ⟨405, -1⟩ := by decide

example : pyFloat? ("-.5e2".toList) = some ⟨-5, 1⟩ := by decide

example : pyFloat? ("4o".toList) = none := by decide

example : pyFloat? ("".toList) = none := by decide

example :
    (verify_label
      ("Old Barrel Whiskey 40% ALC/VOL 750 mL GOVERNMENT WARNING: pregnant driving".toList)
      ⟨"Old Barrel".toList, "Whiskey".toList, "40".toList, "750 ml".toList⟩).map
      (fun r => (r.overall_match, r.checks.map FieldCheckResult.matched)) =
    Except.ok (true, [true, true, true, true, true]) := by decide

example :
    verify_label ("abc".toList) ⟨[], [], [], []⟩ =
      Except.error ("Could not read text from image. Please try a clearer image.".toList) := by
  decide


/-! ### Claim theorems -/

/-- C5: percentage extraction returns only values in the inclusive range
[0, 100] — a parsed `<number>%` value out of range is discarded, not an
error — and candidates come in first-occurrence order: "45%" yields
[45.0], "145%" yields the empty sequence, and a two-candidate text keeps
text order. -/
theorem C5_find_percentage_range_and_order :
    (∀ text : List Char, ∀ v ∈ find_percentage text, 0 ≤ v.toRat ∧ v.toRat ≤ 100) ∧
    (find_percentage ("45%".toList)).map PyFloat.toRat = [45] ∧
    (find_percentage ("145%".toList)).map PyFloat.toRat = [] ∧
    (find_percentage ("30% then 45.5%".toList)).map PyFloat.toRat = [30, 91 / 2] := by
  refine ⟨?_, ?_, ?_, ?_⟩
  · intro text v hv
    have h := (List.mem_filter.mp hv).2
    rw [Bool.and_eq_true] at h
    have h0 := (PyFloat.le_iff ⟨0, 0⟩ v).mp h.1
    have h1 := (PyFloat.le_iff v ⟨100, 0⟩).mp h.2
    constructor
    · simpa [PyFloat.toRat] using h0
    · simpa [PyFloat.toRat] using h1
  · rw [show find_percentage ("45%".toList) = [⟨45, 0⟩] from by decide]
    norm_num [PyFloat.toRat]
  · rw [show find_percentage ("145%".toList) = [] from by decide]
    rfl
  · rw [show find_percentage ("30% then 45.5%".toList) = [⟨30, 0⟩, ⟨455, -1⟩] from by decide]
    norm_num [PyFloat.toRat]

/-- Witness for C5 at a concrete extraction. -/
theorem C5_witness : 0 ≤ PyFloat.toRat ⟨45, 0⟩ ∧ PyFloat.toRat ⟨45, 0⟩ ≤ 100 :=
  C5_find_percentage_range_and_order.1 ("45%".toList) ⟨45, 0⟩ (by decide)

/-- C9: when the trimmed OCR text is shorter than 10 characters the
orchestrator stops with the client-error guidance message and produces no
`VerificationResult`; no field matcher output appears. -/
theorem C9_short_ocr_text_terminal (extracted : List Char) (form : FormData)
    (h : (pyStrip extracted).length < 10) :
    verify_label extracted form =
      Except.error ("Could not read text from image. Please try a clearer image.".toList) := by
  unfold verify_label
  rw [if_pos]
  simp [h]

/-- Witness for C9 on a 3-character OCR text. -/
theorem C9_witness :
    verify_label ("abc".toList) ⟨[], [], [], []⟩ =
      Except.error ("Could not read text from image. Please try a clearer image.".toList) :=
  C9_short_ocr_text_terminal ("abc".toList) ⟨[], [], [], []⟩ (by decide)

/-- C10: a non-empty, whitespace-only expected text field normalizes to
the empty string, which is a substring of every normalized label, so
`check_match` reports matched=true with the "found on label" message for
every label; the value is not treated as "not provided". -/
theorem C10_whitespace_form_matches (label form field : List Char)
    (h1 : form ≠ []) (h2 : ∀ c ∈ form, pySpace c = true) :
    check_match label form field = (true, field ++ " found on label".toList) := by
  have hn : normalize_text form = [] := normalize_text_of_all_space h2
  have hf : form.isEmpty = false := by simpa using h1
  unfold check_match
  rw [hf]
  simp only [Bool.false_eq_true, if_false]
  rw [hn, isSubOf_nil]
  simp

/-- Witness for C10 on a two-space form value. -/
theorem C10_witness :
    check_match ("some label".toList) ("  ".toList) ("Brand Name".toList) =
      (true, "Brand Name found on label".toList) :=
  C10_whitespace_form_matches ("some label".toList) ("  ".toList) ("Brand Name".toList)
    (by decide) (by decide)


/-- C1: past both gates the orchestrator runs brand name, product class,
alcohol content, net contents (only when provided), government warning,
in that order, appending exactly one `FieldCheckResult` per check run,
and `overall_match` is the conjunction of the matched flags of the
checks actually run (a skipped net-contents check does not count). -/
theorem C1_orchestrator_fixed_order (extracted : List Char) (form : FormData)
    (h : 10 ≤ (pyStrip extracted).length) :
    ∃ r, verify_label extracted form = Except.ok r ∧
      r.checks.map FieldCheckResult.field =
        ["Brand Name".toList, "Product Class/Type".toList, "Alcohol Content".toList] ++
          (if form.netContents = [] then [] else ["Net Contents".toList]) ++
          ["Government Warning".toList] ∧
      r.checks.map FieldCheckResult.matched =
        [(check_match extracted form.brandName ("Brand Name".toList)).1,
          (check_match extracted form.productClass ("Product Class/Type".toList)).1,
          (check_alcohol extracted form.alcoholContent).1] ++
          (if form.netContents = [] then []
            else [(check_volume extracted form.netContents).1]) ++
          [(check_warning extracted).1] ∧
      r.overall_match = r.checks.all FieldCheckResult.matched := by
  refine ⟨_, verify_label_ok extracted form h, ?_, ?_, ?_⟩
  · by_cases hnc : form.netContents = []
    · have he : form.netContents.isEmpty = true := by simpa using hnc
      simp [he, hnc]
    · have he : form.netContents.isEmpty = false := by simpa using hnc
      simp [he, hnc]
  · by_cases hnc : form.netContents = []
    · have he : form.netContents.isEmpty = true := by simpa using hnc
      simp [he, hnc]
    · have he : form.netContents.isEmpty = false := by simpa using hnc
      simp [he, hnc]
  · simp only [List.all_append, List.all_cons, List.all_nil]
    by_cases hnc : form.netContents.isEmpty
    · rw [hnc]
      cases (check_match extracted form.brandName ("Brand Name".toList)).1 <;>
        cases (check_match extracted form.productClass ("Product Class/Type".toList)).1 <;>
        cases (check_alcohol extracted form.alcoholContent).1 <;>
        cases (check_warning extracted).1 <;> rfl
    · rw [Bool.not_eq_true] at hnc
      rw [hnc]
      cases (check_match extracted form.brandName ("Brand Name".toList)).1 <;>
        cases (check_match extracted form.productClass ("Product Class/Type".toList)).1 <;>
        cases (check_alcohol extracted form.alcoholContent).1 <;>
        cases (check_volume extracted form.netContents).1 <;>
        cases (check_warning extracted).1 <;> rfl

/-- Witness for C1 on the end-to-end passing scenario. -/
theorem C1_witness :
    ∃ r, verify_label
        ("Old Barrel Whiskey 40% ALC/VOL 750 mL GOVERNMENT WARNING: pregnant driving".toList)
        ⟨"Old Barrel".toList, "Whiskey".toList, "40".toList, "750 ml".toList⟩ =
      Except.ok r ∧
      r.checks.map FieldCheckResult.field =
        ["Brand Name".toList, "Product Class/Type".toList, "Alcohol Content".toList] ++
          (if ("750 ml".toList : List Char) = [] then [] else ["Net Contents".toList]) ++
          ["Government Warning".toList] ∧
      r.checks.map FieldCheckResult.matched =
        [(check_match
            ("Old Barrel Whiskey 40% ALC/VOL 750 mL GOVERNMENT WARNING: pregnant driving".toList)
            ("Old Barrel".toList) ("Brand Name".toList)).1,
          (check_match
            ("Old Barrel Whiskey 40% ALC/VOL 750 mL GOVERNMENT WARNING: pregnant driving".toList)
            ("Whiskey".toList) ("Product Class/Type".toList)).1,
          (check_alcohol
            ("Old Barrel Whiskey 40% ALC/VOL 750 mL GOVERNMENT WARNING: pregnant driving".toList)
            ("40".toList)).1] ++
          (if ("750 ml".toList : List Char) = [] then []
            else [(check_volume
              ("Old Barrel Whiskey 40% ALC/VOL 750 mL GOVERNMENT WARNING: pregnant driving".toList)
              ("750 ml".toList)).1]) ++
          [(check_warning
            ("Old Barrel Whiskey 40% ALC/VOL 750 mL GOVERNMENT WARNING: pregnant driving".toList)).1] ∧
      r.overall_match = r.checks.all FieldCheckResult.matched :=
  C1_orchestrator_fixed_order
    ("Old Barrel Whiskey 40% ALC/VOL 750 mL GOVERNMENT WARNING: pregnant driving".toList)
    ⟨"Old Barrel".toList, "Whiskey".toList, "40".toList, "750 ml".toList⟩ (by decide)

/-- C6: net contents is the only optional field: an empty/absent expected
value makes `check_volume` succeed with the "not required" message, the
orchestrator then skips the check (no "Net Contents" entry) and
`overall_match` is the conjunction of the four other checks alone; a
provided value with no extractable label volumes fails naming the
expected value. -/
theorem C6_net_contents_optional :
    (∀ label, check_volume label [] = (true, "Net contents not required".toList)) ∧
    (∀ label form, form ≠ [] → find_volume label = [] →
      check_volume label form =
        (false, "Net contents not found on label (expected ".toList ++ form ++ ")".toList)) ∧
    (∀ extracted form r, 10 ≤ (pyStrip extracted).length → form.netContents = [] →
      verify_label extracted form = Except.ok r →
      ("Net Contents".toList) ∉ r.checks.map FieldCheckResult.field ∧
      r.overall_match =
        ((check_match extracted form.brandName ("Brand Name".toList)).1 &&
          (check_match extracted form.productClass ("Product Class/Type".toList)).1 &&
          (check_alcohol extracted form.alcoholContent).1 &&
          (check_warning extracted).1)) := by
  refine ⟨fun label => rfl, ?_, ?_⟩
  · intro label form hform hvol
    have hf : form.isEmpty = false := by simpa using hform
    unfold check_volume
    rw [hf]
    simp only [Bool.false_eq_true, if_false]
    rw [hvol]
  · intro extracted form r hlen hnet hok
    have he : form.netContents.isEmpty = true := by simpa using hnet
    rw [verify_label_ok extracted form hlen] at hok
    injection hok with hok
    subst hok
    constructor
    · simp only [he, Bool.not_true, Bool.false_eq_true, if_false, List.append_nil,
        List.map_append, List.map_cons, List.map_nil]
      decide
    · simp [he]

/-- Witness for C6 at concrete inputs. -/
theorem C6_witness :
    check_volume ("just words".toList) ("750 ml".toList) =
      (false, "Net contents not found on label (expected ".toList ++ "750 ml".toList ++
        ")".toList) :=
  C6_net_contents_optional.2.1 ("just words".toList) ("750 ml".toList)
    (by decide) (by decide)

/-- C7: with a provided expected volume and a non-empty candidate list,
`check_volume` succeeds exactly when for some candidate one normalized
string contains the other (so expected "5 ml" matches candidate "25 ml");
otherwise it fails reporting the first candidate. -/
theorem C7_check_volume_substring_rule (label form : List Char)
    (hform : form ≠ []) (hvol : find_volume label ≠ []) :
    ((check_volume label form).1 = true ↔
      ∃ v ∈ find_volume label,
        normalize_text form <:+: normalize_text v ∨
          normalize_text v <:+: normalize_text form) ∧
    (∀ v0 vs, find_volume label = v0 :: vs →
      (∀ v ∈ find_volume label,
        ¬(normalize_text form <:+: normalize_text v ∨
          normalize_text v <:+: normalize_text form)) →
      check_volume label form =
        (false, "Net contents mismatch: found ".toList ++ v0 ++
          ", expected ".toList ++ form)) := by
  have hf : form.isEmpty = false := by simpa using hform
  have hpred : ∀ v : List Char,
      (isSubOf (normalize_text form) (normalize_text v) ||
        isSubOf (normalize_text v) (normalize_text form)) = true ↔
      (normalize_text form <:+: normalize_text v ∨
        normalize_text v <:+: normalize_text form) := by
    intro v
    simp [isSubOf]
  obtain ⟨v0, vs, hvne⟩ : ∃ v0 vs, find_volume label = v0 :: vs := by
    rcases hv : find_volume label with _ | ⟨a, b⟩
    · exact absurd hv hvol
    · exact ⟨a, b, rfl⟩
  have hcv : check_volume label form =
      match (v0 :: vs).find? (fun label_vol =>
          isSubOf (normalize_text form) (normalize_text label_vol) ||
            isSubOf (normalize_text label_vol) (normalize_text form)) with
      | some label_vol => (true, "Net contents matches: ".toList ++ label_vol)
      | none => (false, "Net contents mismatch: found ".toList ++ v0 ++
          ", expected ".toList ++ form) := by
    unfold check_volume
    rw [hf]
    simp only [Bool.false_eq_true, if_false]
    rw [hvne]
  constructor
  · rw [hcv, hvne]
    cases hfind : (v0 :: vs).find? (fun label_vol =>
        isSubOf (normalize_text form) (normalize_text label_vol) ||
          isSubOf (normalize_text label_vol) (normalize_text form)) with
    | none =>
      rw [List.find?_eq_none] at hfind
      constructor
      · intro hfalse
        simp at hfalse
      · rintro ⟨v, hv, hvp⟩
        exact absurd ((hpred v).mpr hvp) (hfind v hv)
    | some v =>
      have hm : v ∈ v0 :: vs := List.mem_of_find?_eq_some hfind
      have hp := List.find?_some hfind
      constructor
      · intro _
        exact ⟨v, hm, (hpred v).mp hp⟩
      · intro _
        rfl
  · intro w0 ws hw hall
    rw [hvne] at hw
    injection hw with hw1 hw2
    subst hw1
    subst hw2
    rw [hcv]
    have hnone : (v0 :: vs).find? (fun label_vol =>
        isSubOf (normalize_text form) (normalize_text label_vol) ||
          isSubOf (normalize_text label_vol) (normalize_text form)) = none := by
      rw [List.find?_eq_none]
      intro v hv hvp
      rw [hvne] at hall
      exact hall v hv ((hpred v).mp hvp)
    rw [hnone]

/-- Witness for C7: "5 ml" matches the candidate "25 ml" through the
both-direction substring rule. -/
theorem C7_witness :
    (check_volume ("25 ml".toList) ("5 ml".toList)).1 = true :=
  (C7_check_volume_substring_rule ("25 ml".toList) ("5 ml".toList)
      (by decide) (by decide)).1.mpr
    ⟨"25 ml".toList, by decide, Or.inl (by decide)⟩


/-- C4: the government-warning check passes immediately when the
normalized text contains "government warning" (hence any-case input
passes); otherwise it passes with "partially found" exactly when at
least two of the four key phrases occur; otherwise it fails (a text with
only "pregnant" fails). -/
theorem C4_check_warning_characterization :
    (∀ label,
      ((check_warning label).1 = true ↔
        ("government warning".toList <:+: normalize_text label ∨
          2 ≤ (warningPhrases.filter
            (fun p => isSubOf p (normalize_text label))).length))) ∧
    (∀ label, "government warning".toList <:+: normalize_text label →
      check_warning label = (true, "Government warning found on label".toList)) ∧
    (∀ label, ¬("government warning".toList <:+: normalize_text label) →
      2 ≤ (warningPhrases.filter (fun p => isSubOf p (normalize_text label))).length →
      check_warning label = (true, "Government warning partially found".toList)) ∧
    (∀ label, ¬("government warning".toList <:+: normalize_text label) →
      (warningPhrases.filter (fun p => isSubOf p (normalize_text label))).length < 2 →
      check_warning label = (false, "Government warning not found on label".toList)) ∧
    (check_warning ("GOVERNMENT WARNING".toList)).1 = true ∧
    check_warning ("contains pregnant and driving words".toList) =
      (true, "Government warning partially found".toList) ∧
    (check_warning ("only pregnant appears".toList)).1 = false := by
  have hcase : ∀ label, check_warning label =
      if isSubOf ("government warning".toList) (normalize_text label) then
        (true, "Government warning found on label".toList)
      else if 2 ≤ (warningPhrases.filter
          (fun p => isSubOf p (normalize_text label))).length then
        (true, "Government warning partially found".toList)
      else (false, "Government warning not found on label".toList) := fun label => rfl
  refine ⟨?_, ?_, ?_, ?_, by decide, by decide, by decide⟩
  · intro label
    rw [hcase]
    by_cases hg : "government warning".toList <:+: normalize_text label
    · rw [if_pos (by simpa [isSubOf] using hg)]
      constructor
      · intro _
        exact Or.inl hg
      · intro _
        rfl
    · rw [if_neg (by simpa [isSubOf] using hg)]
      by_cases hc : 2 ≤ (warningPhrases.filter
          (fun p => isSubOf p (normalize_text label))).length
      · rw [if_pos hc]
        constructor
        · intro _
          exact Or.inr hc
        · intro _
          rfl
      · rw [if_neg hc]
        constructor
        · intro h
          simp at h
        · intro h
          rcases h with h | h
          · exact absurd h hg
          · exact absurd h hc
  · intro label hg
    rw [hcase, if_pos (by simpa [isSubOf] using hg)]
  · intro label hg hc
    rw [hcase, if_neg (by simpa [isSubOf] using hg), if_pos hc]
  · intro label hg hc
    rw [hcase, if_neg (by simpa [isSubOf] using hg), if_neg (by omega)]

/-- Witness for C4: a label carrying the any-case exact phrase passes
through the first branch. -/
theorem C4_witness :
    check_warning ("text with GOVERNMENT WARNING present".toList) =
      (true, "Government warning found on label".toList) :=
  C4_check_warning_characterization.2.1
    ("text with GOVERNMENT WARNING present".toList) (by decide)

/-- C3: for a multi-token expected value that is not itself a substring
of the normalized label, the partial-match verdict holds exactly when
the matched-token count reaches `tokenCount * 0.7`; two of three tokens
(2 < 3 * 0.7 = 2.1) fail. -/
theorem C3_check_match_partial_threshold (label form field : List Char)
    (hw : 1 < (pySplit (normalize_text form)).length)
    (hni : ¬(normalize_text form <:+: normalize_text label)) :
    (check_match label form field = (true, field ++ " partially matched".toList) ↔
      (7 : ℚ) / 10 * (pySplit (normalize_text form)).length ≤
        ((pySplit (normalize_text form)).filter
          (fun w => isSubOf w (normalize_text label))).length) ∧
    check_match ("label has old barrel only".toList) ("Old Barrel Reserve".toList)
        ("Brand Name".toList) =
      (false, "Brand Name not found on label".toList) := by
  have hfne : form.isEmpty = false := by
    rcases hf : form with _ | _
    · rw [hf] at hw
      simp [normalize_text, pySplit, pySplitGo] at hw
    · rfl
  have hsub : isSubOf (normalize_text form) (normalize_text label) = false := by
    simp [isSubOf, hni]
  constructor
  · unfold check_match
    rw [hfne]
    simp only [Bool.false_eq_true, if_false]
    rw [hsub]
    simp only [Bool.false_eq_true, if_false]
    have hlen : ((pySplit (normalize_text form)).length > 1) = True := by
      simp [hw]
    rw [show (decide ((pySplit (normalize_text form)).length > 1)) = true by
      simp [hw]]
    rw [Bool.true_and]
    cases hth : PyFloat.le
        (PyFloat.mul ⟨((pySplit (normalize_text form)).length : Int), 0⟩ ⟨7, -1⟩)
        ⟨(((pySplit (normalize_text form)).filter
            (fun w => isSubOf w (normalize_text label))).length : Int), 0⟩ with
    | false =>
      rw [← threshold_bridge]
      constructor
      · intro h
        injection h with h1 h2
        exact absurd (List.append_cancel_left
          (h2.trans rfl)) (by decide)
      · intro h
        rw [hth] at h
        cases h
    | true =>
      rw [← threshold_bridge]
      simp [hth]
  · decide

/-- Witness for C3 at a concrete two-of-three-token input. -/
theorem C3_witness :
    check_match ("has old barrel x".toList) ("Old Barrel Reserve".toList)
        ("Brand Name".toList) =
      (true, "Brand Name partially matched".toList) ↔
      (7 : ℚ) / 10 * (pySplit (normalize_text ("Old Barrel Reserve".toList))).length ≤
        ((pySplit (normalize_text ("Old Barrel Reserve".toList))).filter
          (fun w => isSubOf w (normalize_text ("has old barrel x".toList)))).length :=
  (C3_check_match_partial_threshold ("has old barrel x".toList)
    ("Old Barrel Reserve".toList) ("Brand Name".toList)
    (by decide) (by decide)).1


/-- C2: when the expected alcohol value parses to `v`, the matcher
succeeds iff some extracted percentage is within `0.5` of `v` (40.5
matches 40.0, 40.6 does not — see the witness); when candidates exist
but none is in tolerance it fails reporting the first candidate
alongside the expected value. -/
theorem C2_check_alcohol_tolerance (label form : List Char) (v : PyFloat)
    (hp : pyFloat? (alcoholCleaned form) = some v) :
    ((check_alcohol label form).1 = true ↔
      ∃ p ∈ find_percentage label, |p.toRat - v.toRat| ≤ 1 / 2) ∧
    (∀ p0 ps, find_percentage label = p0 :: ps →
      (∀ p ∈ find_percentage label, ¬(|p.toRat - v.toRat| ≤ 1 / 2)) →
      check_alcohol label form =
        (false, "Alcohol content mismatch: found ".toList ++ p0.pyRepr ++
          "%, expected ".toList ++ v.pyRepr ++ "%".toList)) := by
  have hfne : form.isEmpty = false := by
    rcases hf : form with _ | _
    · rw [hf] at hp
      simp [alcoholCleaned, pyFloat?] at hp
    · rfl
  have hred : check_alcohol label form =
      match find_percentage label with
      | [] =>
        (false, "Alcohol content not found on label (expected ".toList ++
          v.pyRepr ++ "%)".toList)
      | p0 :: ps =>
        match (p0 :: ps).find?
            (fun label_val => ((label_val.sub v).abs).le ⟨5, -1⟩) with
        | some label_val =>
          (true, "Alcohol content matches: ".toList ++ label_val.pyRepr ++ "%".toList)
        | none =>
          (false, "Alcohol content mismatch: found ".toList ++ p0.pyRepr ++
            "%, expected ".toList ++ v.pyRepr ++ "%".toList) := by
    unfold check_alcohol
    rw [hfne]
    simp only [Bool.false_eq_true, if_false]
    rw [hp]
  cases hps : find_percentage label with
  | nil =>
    have hr : check_alcohol label form =
        (false, "Alcohol content not found on label (expected ".toList ++
          v.pyRepr ++ "%)".toList) := by
      rw [hred, hps]
    constructor
    · rw [hr]
      simp
    · intro p0 ps h
      exact absurd h (by simp)
  | cons p0 ps =>
    cases hfind : (p0 :: ps).find?
        (fun label_val => ((label_val.sub v).abs).le ⟨5, -1⟩) with
    | some lv =>
      have hr : check_alcohol label form =
          (true, "Alcohol content matches: ".toList ++ lv.pyRepr ++ "%".toList) := by
        rw [hred, hps]
        show (match (p0 :: ps).find?
            (fun label_val => ((label_val.sub v).abs).le ⟨5, -1⟩) with
          | some label_val =>
            (true, "Alcohol content matches: ".toList ++ label_val.pyRepr ++ "%".toList)
          | none =>
            (false, "Alcohol content mismatch: found ".toList ++ p0.pyRepr ++
              "%, expected ".toList ++ v.pyRepr ++ "%".toList)) = _
        rw [hfind]
      have hp2 := List.find?_some hfind
      constructor
      · rw [hr]
        constructor
        · intro _
          exact ⟨lv, List.mem_of_find?_eq_some hfind, (tolerance_bridge lv v).mp hp2⟩
        · intro _
          rfl
      · intro q0 qs hq hall
        exfalso
        exact hall lv (List.mem_of_find?_eq_some hfind) ((tolerance_bridge lv v).mp hp2)
    | none =>
      have hr : check_alcohol label form =
          (false, "Alcohol content mismatch: found ".toList ++ p0.pyRepr ++
            "%, expected ".toList ++ v.pyRepr ++ "%".toList) := by
        rw [hred, hps]
        show (match (p0 :: ps).find?
            (fun label_val => ((label_val.sub v).abs).le ⟨5, -1⟩) with
          | some label_val =>
            (true, "Alcohol content matches: ".toList ++ label_val.pyRepr ++ "%".toList)
          | none =>
            (false, "Alcohol content mismatch: found ".toList ++ p0.pyRepr ++
              "%, expected ".toList ++ v.pyRepr ++ "%".toList)) = _
        rw [hfind]
      rw [List.find?_eq_none] at hfind
      constructor
      · rw [hr]
        constructor
        · intro h
          simp at h
        · rintro ⟨p, hpmem, hptol⟩
          exact absurd ((tolerance_bridge p v).mpr hptol) (hfind p hpmem)
      · intro q0 qs hq hall
        injection hq with hq1 hq2
        subst hq1
        subst hq2
        exact hr

/-- Witness for C2: expected 40.0 matches a label value of 40.5 and not
one of 40.6. -/
theorem C2_witness :
    (check_alcohol ("alc 40.5% vol".toList) ("40".toList)).1 = true ∧
    (check_alcohol ("alc 40.6% vol".toList) ("40".toList)).1 = false := by
  have h1 := (C2_check_alcohol_tolerance ("alc 40.5% vol".toList) ("40".toList)
    ⟨40, 0⟩ (by decide)).1
  have h2 := (C2_check_alcohol_tolerance ("alc 40.6% vol".toList) ("40".toList)
    ⟨40, 0⟩ (by decide)).1
  constructor
  · apply h1.mpr
    refine ⟨⟨405, -1⟩, by decide, ?_⟩
    have heq : PyFloat.toRat ⟨405, -1⟩ - PyFloat.toRat ⟨40, 0⟩ = 1 / 2 := by
      norm_num [PyFloat.toRat, zpow_neg]
    rw [heq, abs_of_nonneg (by norm_num : (0 : ℚ) ≤ 1 / 2)]
  · cases hb : (check_alcohol ("alc 40.6% vol".toList) ("40".toList)).1 with
    | false => rfl
    | true =>
      exfalso
      rcases h2.mp hb with ⟨p, hpmem, hle⟩
      rw [show find_percentage ("alc 40.6% vol".toList) = [⟨406, -1⟩] from by decide] at hpmem
      rcases List.mem_singleton.mp hpmem with rfl
      have heq : PyFloat.toRat ⟨406, -1⟩ - PyFloat.toRat ⟨40, 0⟩ = 3 / 5 := by
        norm_num [PyFloat.toRat, zpow_neg]
      rw [heq, abs_of_nonneg (by norm_num : (0 : ℚ) ≤ 3 / 5)] at hle
      norm_num at hle


/-- C8: normalization is idempotent — `normalize(normalize x) = normalize x`
for every string — and a string that is already in normal form (every
character fixed by lowercasing, every whitespace character a single ASCII
space, no two adjacent spaces, no space at either end) is returned
unchanged. -/
theorem C8_normalize_idempotent :
    (∀ x : List Char, normalize_text (normalize_text x) = normalize_text x) ∧
    (∀ x : List Char, (∀ c ∈ x, c.toLower = c) →
      (∀ c ∈ x, pySpace c = true → c = ' ') →
      ¬ ([' ', ' '] <:+: x) →
      x.head? ≠ some ' ' → x.getLast? ≠ some ' ' →
      normalize_text x = x) :=
  ⟨normalize_text_idem,
    fun _ h1 h2 h3 h4 h5 => normalize_of_normalized h1 h2 h3 h4 h5⟩

/-- Witness for C8 on an already-normalized string. -/
theorem C8_witness :
    normalize_text ("already normal text".toList) = "already normal text".toList :=
  C8_normalize_idempotent.2 ("already normal text".toList)
    (by decide) (by decide) (by decide) (by decide) (by decide)
